import Mathlib

/-!
Shallow embedding of the Task-Manager backend task subsystem:
the Task data model (backend/src/models/Task.js), the in-memory
fallback store (backend/src/utils/memoryStore.js), the ownership
middleware (backend/src/middleware/auth.js), the validation
middleware (backend/src/middleware/validation.js) and the task
controller handlers (backend/src/controllers/taskController.js).

Identifiers are modelled as natural numbers (the memory store uses
auto-incrementing numeric ids; the document database uses its own id
type — only equality of ids is ever used by this subsystem). Dates
are modelled as integers (milliseconds since the epoch); string
comparison on stored priority values is the lexicographic order the
document database applies when sorting a string field.
-/

namespace TaskManager

/-- Priority enum of the Task schema: values high, medium, low, backlog. -/
inductive Priority where
  | high
  | medium
  | low
  | backlog
deriving DecidableEq, Repr

/-- The string stored in the database for each priority value. -/
def Priority.str : Priority → String
  | .high => "high"
  | .medium => "medium"
  | .low => "low"
  | .backlog => "backlog"

/-- Status enum of the Task schema: values pending, in-progress, completed. -/
inductive Status where
  | pending
  | inProgress
  | completed
deriving DecidableEq, Repr

/-- A Task record as persisted by the backend (fields of taskSchema in
models/Task.js plus the timestamps added by the schema options). -/
structure Task where
  _id : Nat
  title : String
  description : Option String
  dueDate : Option Int
  priority : Priority
  status : Status
  assignee : Nat
  createdBy : Nat
  position : Nat
  tags : List String
  isArchived : Bool
  createdAt : Int
  updatedAt : Int
deriving DecidableEq, Repr

/-- memoryStore.tasks.findByAssignee: tasks of the assignee that are not
archived (`task.assignee == assigneeId && !task.isArchived`). -/
def tasksFindByAssignee (ts : List Task) (assigneeId : Nat) : List Task :=
  ts.filter fun t => t.assignee == assigneeId && !t.isArchived

/-- memoryStore.tasks.findById: first task with the given id; no filter on
the archived flag. `Task.findById` on the database behaves the same way. -/
def tasksFindById (ts : List Task) (id : Nat) : Option Task :=
  ts.find? fun t => t._id == id

/-- checkResourceOwnership (middleware/auth.js) with its default resource
user field: `req.checkOwnership(resource)` returns false when the resource
is absent, else true exactly when the acting user is the assignee or the
creator of the resource. -/
def checkOwnership (userId : Nat) (resource : Option Task) : Bool :=
  match resource with
  | none => false
  | some t =>
    let isAssignee := t.assignee == userId
    let isCreator := t.createdBy == userId
    isAssignee || isCreator

/-- Rank of a priority value in the lexicographic order of the stored
strings, which is the order the database applies when sorting the string
field `priority`: backlog < high < low < medium. The theorems
`mongoStrRank_lt_iff` and `mongoStrRank_eq_iff` prove this rank faithful
to the string comparison. -/
def mongoStrRank : Priority → Nat
  | .backlog => 0
  | .high => 1
  | .low => 2
  | .medium => 3

/-- Sort key of the task list query `.sort({ priority: 1, position: 1,
createdAt: -1 })`: priority is a stored string, so the database orders it
lexicographically (encoded by `mongoStrRank`); createdAt descending is
encoded by negating the key. -/
def listSortKey (t : Task) : Lex (Nat × Lex (Nat × Int)) :=
  toLex (mongoStrRank t.priority, toLex (t.position, -t.createdAt))

/-- The comparison relation realised by the list query sort specification. -/
def mongoListLE (a b : Task) : Prop :=
  listSortKey a ≤ listSortKey b

instance : DecidableRel mongoListLE := fun a b =>
  inferInstanceAs (Decidable (listSortKey a ≤ listSortKey b))

instance : IsTotal Task mongoListLE :=
  ⟨fun a b => le_total (listSortKey a) (listSortKey b)⟩

instance : IsTrans Task mongoListLE :=
  ⟨fun _ _ _ => le_trans⟩

/-- Sort key of the board lane query `.sort({ position: 1, createdAt: -1 })`
used by getTasksByPriority in models/Task.js. -/
def boardSortKey (t : Task) : Lex (Nat × Int) :=
  toLex (t.position, -t.createdAt)

/-- The comparison relation realised by the board lane sort specification. -/
def mongoBoardLE (a b : Task) : Prop :=
  boardSortKey a ≤ boardSortKey b

instance : DecidableRel mongoBoardLE := fun a b =>
  inferInstanceAs (Decidable (boardSortKey a ≤ boardSortKey b))

instance : IsTotal Task mongoBoardLE :=
  ⟨fun a b => le_total (boardSortKey a) (boardSortKey b)⟩

instance : IsTrans Task mongoBoardLE :=
  ⟨fun _ _ _ => le_trans⟩

/-- Typed failures a handler can respond with, as in the controllers:
404 not-found, 403 access denied, 400 validation failure (listing the
violated fields, as the details array of the validation middleware does),
and the catch-all 500 of a thrown internal error. -/
inductive HandlerError where
  | notFound (msg : String)
  | authDenied (msg : String)
  | validationFailed (fields : List String)
  | serverError
deriving DecidableEq, Repr

/-- The query object of the list branch of getTasks:
`{ assignee, isArchived: false }` plus the optional priority and status
filters. -/
def listQueryMatches (userId : Nat) (priority? : Option Priority)
    (status? : Option Status) (t : Task) : Bool :=
  t.assignee == userId && !t.isArchived &&
    (match priority? with | none => true | some p => t.priority == p) &&
    (match status? with | none => true | some s => t.status == s)

/-- The matching tasks of the list query in the order the database returns
them under `.sort({ priority: 1, position: 1, createdAt: -1 })`. -/
def mongoSortedMatching (ts : List Task) (userId : Nat)
    (priority? : Option Priority) (status? : Option Status) : List Task :=
  (ts.filter (listQueryMatches userId priority? status?)).insertionSort mongoListLE

/-- Pagination metadata of the getTasks response. -/
structure Pagination where
  page : Nat
  limit : Nat
  totalPages : Nat
  totalTasks : Nat
  hasNext : Bool
  hasPrev : Bool
deriving DecidableEq, Repr

/-- The list branch of getTasks on the database backend: filtered sorted
query, `.skip((page-1)*limit).limit(limit)` window, and the pagination
object with `totalPages = Math.ceil(totalTasks / limit)`,
`hasNext = page < totalPages`, `hasPrev = page > 1`. For a positive limit
the natural-number expression `(n + limit - 1) / limit` is that ceiling. -/
def getTasksListMongo (ts : List Task) (userId : Nat)
    (priority? : Option Priority) (status? : Option Status)
    (page limit : Nat) : List Task × Pagination :=
  let matching := ts.filter (listQueryMatches userId priority? status?)
  let sorted := matching.insertionSort mongoListLE
  let skip := (page - 1) * limit
  let window := (sorted.drop skip).take limit
  let totalTasks := matching.length
  let totalPages := (totalTasks + limit - 1) / limit
  (window,
    { page := page, limit := limit, totalPages := totalPages,
      totalTasks := totalTasks,
      hasNext := decide (page < totalPages),
      hasPrev := decide (1 < page) })

/-- The memory branch of getTasks before pagination or grouping:
`findByAssignee` then the optional priority and status filters, in store
(insertion) order — the memory branch applies no sort. -/
def memoryFilteredTasks (ts : List Task) (userId : Nat)
    (priority? : Option Priority) (status? : Option Status) : List Task :=
  let tasks0 := tasksFindByAssignee ts userId
  let tasks1 := match priority? with
    | none => tasks0
    | some p => tasks0.filter fun t => t.priority == p
  match status? with
  | none => tasks1
  | some s => tasks1.filter fun t => t.status == s

/-- The list branch of getTasks on the memory fallback:
`tasks.slice(skip, skip + limit)` and the same pagination arithmetic as
the database branch. -/
def getTasksListMemory (ts : List Task) (userId : Nat)
    (priority? : Option Priority) (status? : Option Status)
    (page limit : Nat) : List Task × Pagination :=
  let tasks := memoryFilteredTasks ts userId priority? status?
  let skip := (page - 1) * limit
  let window := (tasks.drop skip).take limit
  let totalTasks := tasks.length
  let totalPages := (totalTasks + limit - 1) / limit
  (window,
    { page := page, limit := limit, totalPages := totalPages,
      totalTasks := totalTasks,
      hasNext := decide (page < totalPages),
      hasPrev := decide (1 < page) })

/-- One priority lane of the board response. -/
structure Lane where
  tasks : List Task
  totalCount : Nat
  hasMore : Bool
deriving DecidableEq, Repr

/-- The board response: the loop of getBoardData writes one entry per
element of the fixed four-element priority array (high, medium, low,
backlog), so the result always carries exactly these four lanes. -/
structure Board where
  high : Lane
  medium : Lane
  low : Lane
  backlog : Lane
deriving DecidableEq, Repr

/-- Projection of a board onto one of its four lanes. -/
def Board.lane (b : Board) : Priority → Lane
  | .high => b.high
  | .medium => b.medium
  | .low => b.low
  | .backlog => b.backlog

/-- The filter of one board lane on the database backend:
`{ assignee, priority, isArchived: false }`. -/
def mongoLaneMatches (assigneeId : Nat) (p : Priority) (t : Task) : Bool :=
  t.assignee == assigneeId && !t.isArchived && t.priority == p

/-- Task.getTasksByPriority (models/Task.js): the lane query sorted by
`{ position: 1, createdAt: -1 }` with `.skip((page-1)*limit).limit(limit)`. -/
def getTasksByPriority (ts : List Task) (assigneeId : Nat) (p : Priority)
    (page limit : Nat) : List Task :=
  let matching := ts.filter (mongoLaneMatches assigneeId p)
  ((matching.insertionSort mongoBoardLE).drop ((page - 1) * limit)).take limit

/-- Task.getBoardData (models/Task.js): for each of the four fixed
priorities, the first page of the lane query, the countDocuments total of
the lane filter, and `hasMore = totalCount > limit`. -/
def getBoardData (ts : List Task) (assigneeId : Nat) (limit : Nat) : Board :=
  let mkLane := fun (p : Priority) =>
    let tasks := getTasksByPriority ts assigneeId p 1 limit
    let totalCount := ts.countP (mongoLaneMatches assigneeId p)
    { tasks := tasks, totalCount := totalCount,
      hasMore := decide (limit < totalCount) : Lane }
  { high := mkLane .high, medium := mkLane .medium,
    low := mkLane .low, backlog := mkLane .backlog }

/-- The board branch of getTasks on the memory fallback: after the optional
filters, each of the four fixed priorities gets `slice(0, limit)` of its
tasks, the full per-priority length as totalCount, and
`hasMore = length > limit`. No sort is applied. -/
def getTasksBoardMemory (ts : List Task) (userId : Nat)
    (priority? : Option Priority) (status? : Option Status)
    (limit : Nat) : Board :=
  let tasks := memoryFilteredTasks ts userId priority? status?
  let mkLane := fun (p : Priority) =>
    let priorityTasks := tasks.filter fun t => t.priority == p
    { tasks := priorityTasks.take limit,
      totalCount := priorityTasks.length,
      hasMore := decide (limit < priorityTasks.length) : Lane }
  { high := mkLane .high, medium := mkLane .medium,
    low := mkLane .low, backlog := mkLane .backlog }

/-- The lane a new task is created into on the database backend, i.e. the
query of the findOne in createTask: `{ assignee, priority, isArchived:
false }`. -/
def mongoLane (ts : List Task) (assigneeId : Nat) (p : Priority) : List Task :=
  ts.filter (mongoLaneMatches assigneeId p)

/-- Position assignment of createTask on the database backend:
`findOne({...}).sort({ position: -1 })` yields the lane task of maximal
position, and the new position is `lastTask ? lastTask.position + 1 : 0`. -/
def mongoCreatePosition (ts : List Task) (assigneeId : Nat) (p : Priority) : Nat :=
  match ((mongoLane ts assigneeId p).map (fun t => t.position)).maximum with
  | none => 0
  | some m => m + 1

/-- Position assignment of createTask on the memory fallback: the length of
`findByAssignee(taskAssignee).filter(task => task.priority === priority)`. -/
def memCreatePosition (ts : List Task) (assigneeId : Nat) (p : Priority) : Nat :=
  ((tasksFindByAssignee ts assigneeId).filter fun t => t.priority == p).length

/-- The request body of the task create and full-update routes after the
validateTask middleware has type-checked it: title is always validated
(its validator is not optional), the remaining fields are optional. -/
structure TaskInput where
  title : String
  description : Option String
  dueDate : Option Int
  priority : Option Priority
  status : Option Status
  assignee : Option Nat
  tags : Option (List String)
deriving DecidableEq, Repr

/-- The trim sanitizer the validators apply before the length checks:
surrounding whitespace removed. -/
def jsTrim (s : String) : String :=
  (((s.toList.dropWhile Char.isWhitespace).reverse.dropWhile
      Char.isWhitespace).reverse).asString

/-- validateTask (middleware/validation.js) as the list of violated field
names, in validator-chain order. The dueDate validator rejects exactly
when a due date is supplied and is not strictly after the current time
(`new Date(value) <= new Date()`). Enum and id-format checks of priority,
status and assignee are carried by the types of `TaskInput`. -/
def validateTaskInput (now : Int) (input : TaskInput) : List String :=
  (if (jsTrim input.title).length < 1 || (jsTrim input.title).length > 200
    then ["title"] else []) ++
  (match input.description with
    | some d => if (jsTrim d).length > 1000 then ["description"] else []
    | none => []) ++
  (match input.dueDate with
    | some d => if d ≤ now then ["dueDate"] else []
    | none => []) ++
  (match input.tags with
    | some tags =>
      if tags.length > 10 || tags.any (fun tag => tag.length > 30)
        then ["tags"] else []
    | none => [])

/-- createTask on the database backend, composed with the validateTask
middleware that the POST route runs first (a validation failure responds
400 before the controller is reached). Users are modelled by their ids;
`User.findById` only feeds the existence check. The result pairs the
handler outcome with the task store after the request. -/
def createTaskMongo (now : Int) (users : List Nat) (ts : List Task)
    (creatorId : Nat) (input : TaskInput) (newId : Nat) :
    Except HandlerError Task × List Task :=
  let errors := validateTaskInput now input
  if errors = [] then
    let taskAssignee := input.assignee.getD creatorId
    if users.contains taskAssignee then
      let priority := input.priority.getD .backlog
      let task : Task :=
        { _id := newId, title := input.title,
          description := input.description, dueDate := input.dueDate,
          priority := priority, status := input.status.getD .pending,
          assignee := taskAssignee, createdBy := creatorId,
          position := mongoCreatePosition ts taskAssignee priority,
          tags := input.tags.getD [], isArchived := false,
          createdAt := now, updatedAt := now }
      (.ok task, ts ++ [task])
    else (.error (.notFound "Assignee user not found"), ts)
  else (.error (.validationFailed errors), ts)

/-- createTask on the memory fallback, composed with the same validateTask
middleware; identical to the database branch except for the position
computation and the store it writes to. -/
def createTaskMemory (now : Int) (users : List Nat) (ts : List Task)
    (creatorId : Nat) (input : TaskInput) (newId : Nat) :
    Except HandlerError Task × List Task :=
  let errors := validateTaskInput now input
  if errors = [] then
    let taskAssignee := input.assignee.getD creatorId
    if users.contains taskAssignee then
      let priority := input.priority.getD .backlog
      let task : Task :=
        { _id := newId, title := input.title,
          description := input.description, dueDate := input.dueDate,
          priority := priority, status := input.status.getD .pending,
          assignee := taskAssignee, createdBy := creatorId,
          position := memCreatePosition ts taskAssignee priority,
          tags := input.tags.getD [], isArchived := false,
          createdAt := now, updatedAt := now }
      (.ok task, ts ++ [task])
    else (.error (.notFound "Assignee user not found"), ts)
  else (.error (.validationFailed errors), ts)

/-- updateTask (PUT, database backend only), composed with the validateTask
middleware the route runs first. After the not-found, ownership and
new-assignee-existence checks, `findByIdAndUpdate` replaces exactly the
supplied fields (the destructured body fields that are undefined are
stripped from the update) and the schema timestamps refresh updatedAt. -/
def updateTaskMongo (now : Int) (users : List Nat) (ts : List Task)
    (userId : Nat) (taskId : Nat) (input : TaskInput) :
    Except HandlerError Task × List Task :=
  let errors := validateTaskInput now input
  if errors = [] then
    match tasksFindById ts taskId with
    | none => (.error (.notFound "Task not found"), ts)
    | some t =>
      if checkOwnership userId (some t) then
        let assigneeMissing :=
          match input.assignee with
          | some a => a ≠ t.assignee && !users.contains a
          | none => false
        if assigneeMissing then
          (.error (.notFound "Assignee user not found"), ts)
        else
          let patch := fun (x : Task) =>
            { x with
              title := input.title,
              description := input.description.map some |>.getD x.description,
              dueDate := input.dueDate.map some |>.getD x.dueDate,
              priority := input.priority.getD x.priority,
              status := input.status.getD x.status,
              assignee := input.assignee.getD x.assignee,
              tags := input.tags.getD x.tags,
              updatedAt := now }
          (.ok (patch t), ts.map fun x => if x._id == taskId then patch x else x)
      else
        (.error (.authDenied
          "Access denied. You can only modify tasks assigned to you or created by you."), ts)
  else (.error (.validationFailed errors), ts)

/-- updateTaskStatus (PATCH /:id/status, database backend only): after the
not-found and ownership checks, `findByIdAndUpdate(id, { status })` writes
the status field alone, the schema timestamps refreshing updatedAt. The
validateTaskStatus middleware only enforces the status enum, which the
`Status` type carries. -/
def updateTaskStatusMongo (now : Int) (ts : List Task) (userId : Nat)
    (taskId : Nat) (newStatus : Status) :
    Except HandlerError Task × List Task :=
  match tasksFindById ts taskId with
  | none => (.error (.notFound "Task not found"), ts)
  | some t =>
    if checkOwnership userId (some t) then
      let patch := fun (x : Task) => { x with status := newStatus, updatedAt := now }
      (.ok (patch t), ts.map fun x => if x._id == taskId then patch x else x)
    else
      (.error (.authDenied
        "Access denied. You can only modify tasks assigned to you or created by you."), ts)

/-- deleteTask as dispatched by the controller. The controller has no
memory-store branch: it calls `Task.findById` unconditionally, so when the
document database is unavailable the null model throws, the catch-all
responds with a server error, and the memory store is never touched (its
deleteById is never called). With the database connected the handler runs
the not-found and ownership checks and then `findByIdAndDelete`. The
result carries the outcome, the database store and the memory store after
the request. -/
def deleteTask (isMongoConnected : Bool) (mongoTs memTs : List Task)
    (userId : Nat) (taskId : Nat) :
    Except HandlerError Unit × List Task × List Task :=
  if isMongoConnected then
    match tasksFindById mongoTs taskId with
    | none => (.error (.notFound "Task not found"), mongoTs, memTs)
    | some t =>
      if checkOwnership userId (some t) then
        (.ok (), mongoTs.filter (fun x => !(x._id == taskId)), memTs)
      else
        (.error (.authDenied
          "Access denied. You can only delete tasks assigned to you or created by you."),
          mongoTs, memTs)
  else
    (.error .serverError, mongoTs, memTs)

/-- getTask (GET /:id): `findById` — which does not filter on the archived
flag on either backend — followed by the canAccess check
`assignee == user || createdBy == user`; the populate steps only shape the
response. Both backends implement this read identically. -/
def getTask (ts : List Task) (userId : Nat) (taskId : Nat) :
    Except HandlerError Task :=
  match tasksFindById ts taskId with
  | none => .error (.notFound "Task not found")
  | some t =>
    if t.assignee == userId || t.createdBy == userId then .ok t
    else
      .error (.authDenied
        "Access denied. You can only view tasks assigned to you or created by you.")

/-- Severity rank of the priorities as the spec orders them:
high < medium < low < backlog. -/
def severityRank : Priority → Nat
  | .high => 0
  | .medium => 1
  | .low => 2
  | .backlog => 3

/-- Modelled from the spec: the order the spec claims for the list
response — priority ascending by severity, then position ascending, then
creation time descending. -/
def specListLE (a b : Task) : Prop :=
  toLex (severityRank a.priority, toLex (a.position, -a.createdAt))
    ≤ toLex (severityRank b.priority, toLex (b.position, -b.createdAt))

instance : DecidableRel specListLE := fun a b =>
  inferInstanceAs (Decidable (_ ≤ _))

/-- A high-priority task of user 1. -/
def exTaskHigh : Task :=
  { _id := 1, title := "t1", description := none, dueDate := none,
    priority := .high, status := .pending, assignee := 1, createdBy := 1,
    position := 0, tags := [], isArchived := false,
    createdAt := 0, updatedAt := 0 }

/-- A backlog-priority task of user 1, created after `exTaskHigh`. -/
def exTaskBacklog : Task :=
  { exTaskHigh with _id := 2, priority := .backlog, createdAt := 1 }

/-- A high-priority task of user 1 at position 5 of its lane (positions of
lane siblings can be arbitrary after priority/position updates or
deletions, which never renumber). -/
def exTaskPos5 : Task :=
  { exTaskHigh with position := 5 }

/-- An archived task of user 1. -/
def exTaskArchived : Task :=
  { exTaskHigh with isArchived := true }

/-- A create request for a high-priority task with no assignee field. -/
def exCreateInputHigh : TaskInput :=
  { title := "t1", description := none, dueDate := none,
    priority := some .high, status := none, assignee := none, tags := none }

/-- A create request whose due date lies in the past. -/
def exPastDueInput : TaskInput :=
  { title := "t1", description := none, dueDate := some 0,
    priority := none, status := none, assignee := none, tags := none }

/-! Theorems -/

/-- The numeric rank orders priorities exactly as the database orders the
stored priority strings. -/
theorem mongoStrRank_lt_iff (p q : Priority) :
    mongoStrRank p < mongoStrRank q ↔ p.str < q.str := by
  cases p <;> cases q <;>
    simp only [mongoStrRank, Priority.str, String.lt_iff_toList_lt] <;> decide

/-- The numeric rank is injective, matching equality of the stored strings. -/
theorem mongoStrRank_eq_iff (p q : Priority) :
    mongoStrRank p = mongoStrRank q ↔ p.str = q.str := by
  cases p <;> cases q <;> simp only [mongoStrRank, Priority.str] <;> decide

/-- C1: the ownership check is a pure predicate: for every acting user
identifier u and every task t it returns true exactly when u is the
assignee identifier or the creator identifier of t, and it returns false
(rather than throwing) on an absent resource. -/
theorem C1_ownership_predicate (u : Nat) (t : Task) :
    (checkOwnership u (some t) = true ↔ (u = t.assignee ∨ u = t.createdBy)) ∧
    checkOwnership u none = false := by
  refine ⟨?_, rfl⟩
  simp only [checkOwnership, Bool.or_eq_true, beq_iff_eq]
  constructor
  · rintro (h | h) <;> [exact Or.inl h.symm; exact Or.inr h.symm]
  · rintro (h | h) <;> [exact Or.inl h.symm; exact Or.inr h.symm]

/-- The per-priority lane count of the memory board branch agrees with the
count of the lane filter over the whole store. -/
theorem memoryLane_length (ts : List Task) (uid : Nat) (p : Priority) :
    ((memoryFilteredTasks ts uid none none).filter fun t => t.priority == p).length
      = ts.countP (mongoLaneMatches uid p) := by
  simp only [memoryFilteredTasks, tasksFindByAssignee, List.filter_filter,
    ← List.countP_eq_length_filter]
  refine List.countP_congr fun t _ => ?_
  simp only [mongoLaneMatches]
  cases h1 : (t.assignee == uid) <;> cases h2 : t.isArchived <;>
    cases h3 : (t.priority == p) <;> rfl

/-- A lane whose count is zero contributes no tasks. -/
theorem laneFilter_nil_of_countP_zero (ts : List Task) (uid : Nat) (p : Priority)
    (h : ts.countP (mongoLaneMatches uid p) = 0) :
    ts.filter (mongoLaneMatches uid p) = [] := by
  have := List.countP_eq_length_filter (l := ts) (p := mongoLaneMatches uid p)
  exact List.eq_nil_of_length_eq_zero (by omega)

/-- C2: for every user and page-size limit, the board query yields all four
fixed lanes (the `Board` record, filled unconditionally for each element of
the fixed priority array, omits none); on both backends each lane carries
totalCount equal to the number of non-archived tasks of that user with
that priority and hasMore equal to totalCount > limit; a priority with no
such tasks yields an empty lane. -/
theorem C2_board_lanes (ts : List Task) (uid limit : Nat) (p : Priority) :
    ((getBoardData ts uid limit).lane p).totalCount
      = ts.countP (mongoLaneMatches uid p) ∧
    ((getBoardData ts uid limit).lane p).hasMore
      = decide (limit < ts.countP (mongoLaneMatches uid p)) ∧
    ((getTasksBoardMemory ts uid none none limit).lane p).totalCount
      = ts.countP (mongoLaneMatches uid p) ∧
    ((getTasksBoardMemory ts uid none none limit).lane p).hasMore
      = decide (limit < ts.countP (mongoLaneMatches uid p)) ∧
    (ts.countP (mongoLaneMatches uid p) = 0 →
      ((getBoardData ts uid limit).lane p).tasks = [] ∧
      ((getTasksBoardMemory ts uid none none limit).lane p).tasks = []) := by
  have hmem := memoryLane_length ts uid p
  refine ⟨?_, ?_, ?_, ?_, ?_⟩
  · cases p <;> rfl
  · cases p <;> rfl
  · cases p <;> simpa [getTasksBoardMemory, Board.lane] using hmem
  · cases p <;> simp [getTasksBoardMemory, Board.lane, hmem]
  · intro h0
    have hnil := laneFilter_nil_of_countP_zero ts uid p h0
    constructor
    · have hlane : getTasksByPriority ts uid p 1 limit = [] := by
        unfold getTasksByPriority
        rw [hnil]
        simp [List.insertionSort]
      cases p <;> exact hlane
    · have hmemnil : (memoryFilteredTasks ts uid none none).filter
          (fun t => t.priority == p) = [] :=
        List.eq_nil_of_length_eq_zero (by omega)
      cases p <;> simp_all [getTasksBoardMemory, Board.lane]

/-- Witness for C2 at a concrete input: the empty store for user 1 with
limit 2 yields an empty high lane with zero count. -/
theorem C2_board_lanes_witness :
    ((getBoardData [] 1 2).lane .high).totalCount = 0 ∧
    ((getTasksBoardMemory [] 1 none none 2).lane .high).tasks = [] :=
  ⟨(C2_board_lanes [] 1 2 .high).1.trans (by decide),
   ((C2_board_lanes [] 1 2 .high).2.2.2.2 (by decide)).2⟩

/-- Witness for C1 at a concrete input: user 1 owns the task it is
assigned, and the absent resource yields false. -/
theorem C1_ownership_predicate_witness :
    checkOwnership 1 (some exTaskHigh) = true ∧ checkOwnership 1 none = false :=
  ⟨(C1_ownership_predicate 1 exTaskHigh).1.mpr (Or.inl rfl),
   (C1_ownership_predicate 1 exTaskHigh).2⟩

/-- C3 counterexample: on a store holding one high-priority and one
backlog-priority task of the same user, the database list query returns
the backlog task first — the sort compares the stored strings, and
"backlog" sorts before "high" — so the output violates the severity order
high < medium < low < backlog the claim states. -/
theorem C3_counterexample :
    mongoSortedMatching [exTaskHigh, exTaskBacklog] 1 none none
      = [exTaskBacklog, exTaskHigh] ∧
    ¬ List.Sorted specListLE [exTaskBacklog, exTaskHigh] := by
  constructor
  · decide
  · decide

/-- C3 amended: for every assignee and optional priority/status filters,
the database list query returns exactly the non-archived matching tasks of
the assignee, sorted by the stored priority string ascending in
lexicographic order (backlog < high < low < medium), then position
ascending, then creation time descending; the final conjunct states that
the comparison relation of the sort is exactly that lexicographic
comparison of the stored strings. -/
theorem C3_list_sorted_amended (ts : List Task) (uid : Nat)
    (p? : Option Priority) (s? : Option Status) :
    List.Sorted mongoListLE (mongoSortedMatching ts uid p? s?) ∧
    List.Perm (mongoSortedMatching ts uid p? s?)
      (ts.filter (listQueryMatches uid p? s?)) ∧
    (∀ a b : Task, mongoListLE a b ↔
      (a.priority.str < b.priority.str ∨ (a.priority.str = b.priority.str ∧
        (a.position < b.position ∨
          (a.position = b.position ∧ b.createdAt ≤ a.createdAt))))) := by
  refine ⟨List.sorted_insertionSort _ _, List.perm_insertionSort _ _, fun a b => ?_⟩
  simp only [mongoListLE, listSortKey, Prod.Lex.le_iff, mongoStrRank_lt_iff,
    mongoStrRank_eq_iff, neg_le_neg_iff]

/-- C4 counterexample: on a store whose (user 1, high) lane holds exactly
one non-archived task, sitting at position 5, the database create assigns
the new task position 6 — one past the maximal existing position — and not
the lane count 1 that the claim states. -/
theorem C4_counterexample :
    ((createTaskMongo 0 [1] [exTaskPos5] 1 exCreateInputHigh 9).1.map
        (fun t => t.position) = .ok 6) ∧
    (mongoLane [exTaskPos5] 1 .high).length = 1 ∧ (6 : Nat) ≠ 1 := by
  exact ⟨rfl, rfl, by decide⟩

/-- C4 amended: creating into an empty lane yields position 0 on both
backends; on the database backend the new position is strictly greater
than the position of every existing non-archived task of the target lane
(one past the maximum), not the lane count; on the memory fallback it
equals the count of existing non-archived tasks of the lane as the claim
states. -/
theorem C4_position_amended (ts : List Task) (a : Nat) (p : Priority) :
    (mongoLane ts a p = [] → mongoCreatePosition ts a p = 0) ∧
    (∀ t ∈ mongoLane ts a p, t.position < mongoCreatePosition ts a p) ∧
    memCreatePosition ts a p
      = ts.countP (fun t => t.assignee == a && !t.isArchived && t.priority == p) := by
  refine ⟨?_, ?_, ?_⟩
  · intro h
    simp [mongoCreatePosition, h]
  · intro t ht
    have hmem : t.position ∈ (mongoLane ts a p).map (fun t => t.position) :=
      List.mem_map_of_mem _ ht
    rcases hmax : ((mongoLane ts a p).map (fun t => t.position)).maximum with _ | m
    · rw [List.maximum_eq_none] at hmax
      rw [hmax] at hmem
      simp at hmem
    · have hle := List.le_maximum_of_mem hmem hmax
      simp only [mongoCreatePosition, hmax]
      omega
  · simp only [memCreatePosition, tasksFindByAssignee, List.filter_filter,
      ← List.countP_eq_length_filter]
    refine List.countP_congr fun t _ => ?_
    cases h1 : (t.assignee == a) <;> cases h2 : t.isArchived <;>
      cases h3 : (t.priority == p) <;> rfl

/-- Witness for the amended C4 at concrete inputs: the memory fallback
assigns the lane count, and the database backend assigns 0 on an empty
lane. -/
theorem C4_position_amended_witness :
    memCreatePosition [exTaskPos5] 1 .high = 1 ∧
    mongoCreatePosition [] 1 .high = 0 :=
  ⟨((C4_position_amended [exTaskPos5] 1 .high).2.2).trans (by decide),
   (C4_position_amended [] 1 .high).1 (by decide)⟩

/-- Arithmetic of the pagination code: for a positive limit,
`q = (N + limit - 1) / limit` — the natural-number rendering of
`Math.ceil(N / limit)` — satisfies `N ≤ q * limit < N + limit`, and any
page past `q` skips at least `N` records. -/
theorem pages_arith (N limit page : Nat) (hl : 0 < limit) :
    N ≤ ((N + limit - 1) / limit) * limit ∧
    ((N + limit - 1) / limit) * limit < N + limit ∧
    ((N + limit - 1) / limit + 1 ≤ page → N ≤ (page - 1) * limit) := by
  have h1 : limit * ((N + limit - 1) / limit) + (N + limit - 1) % limit
      = N + limit - 1 := Nat.div_add_mod (N + limit - 1) limit
  have h2 : (N + limit - 1) % limit < limit := Nat.mod_lt _ hl
  have h3 : limit * ((N + limit - 1) / limit)
      = ((N + limit - 1) / limit) * limit := Nat.mul_comm _ _
  refine ⟨by omega, by omega, fun hp => ?_⟩
  calc N ≤ ((N + limit - 1) / limit) * limit := by omega
    _ ≤ (page - 1) * limit := Nat.mul_le_mul_right _ (by omega)

/-- C5: with total matching count N, positive limit L and page P, both
backends return pagination metadata with totalPages the ceiling of N / L
(characterised by N ≤ totalPages·L < N + L), hasNext = (P < totalPages)
and hasPrev = (P > 1); a page past the last one yields an empty task list
with hasNext = false rather than an error. -/
theorem C5_pagination (ts : List Task) (uid : Nat) (p? : Option Priority)
    (s? : Option Status) (page limit : Nat) (hl : 0 < limit) :
    ((getTasksListMongo ts uid p? s? page limit).2.totalTasks
        ≤ (getTasksListMongo ts uid p? s? page limit).2.totalPages * limit) ∧
    ((getTasksListMongo ts uid p? s? page limit).2.totalPages * limit
        < (getTasksListMongo ts uid p? s? page limit).2.totalTasks + limit) ∧
    ((getTasksListMongo ts uid p? s? page limit).2.hasNext
        = decide (page < (getTasksListMongo ts uid p? s? page limit).2.totalPages)) ∧
    ((getTasksListMongo ts uid p? s? page limit).2.hasPrev
        = decide (1 < page)) ∧
    ((getTasksListMongo ts uid p? s? page limit).2.totalPages + 1 ≤ page →
      (getTasksListMongo ts uid p? s? page limit).1 = [] ∧
      (getTasksListMongo ts uid p? s? page limit).2.hasNext = false) ∧
    ((getTasksListMemory ts uid p? s? page limit).2.totalTasks
        ≤ (getTasksListMemory ts uid p? s? page limit).2.totalPages * limit) ∧
    ((getTasksListMemory ts uid p? s? page limit).2.totalPages * limit
        < (getTasksListMemory ts uid p? s? page limit).2.totalTasks + limit) ∧
    ((getTasksListMemory ts uid p? s? page limit).2.hasNext
        = decide (page < (getTasksListMemory ts uid p? s? page limit).2.totalPages)) ∧
    ((getTasksListMemory ts uid p? s? page limit).2.hasPrev
        = decide (1 < page)) ∧
    ((getTasksListMemory ts uid p? s? page limit).2.totalPages + 1 ≤ page →
      (getTasksListMemory ts uid p? s? page limit).1 = [] ∧
      (getTasksListMemory ts uid p? s? page limit).2.hasNext = false) := by
  have ha := pages_arith ((ts.filter (listQueryMatches uid p? s?)).length) limit page hl
  have hb := pages_arith ((memoryFilteredTasks ts uid p? s?).length) limit page hl
  refine ⟨ha.1, ha.2.1, rfl, rfl, fun hp => ⟨?_, ?_⟩,
          hb.1, hb.2.1, rfl, rfl, fun hp => ⟨?_, ?_⟩⟩
  · have hlen : (List.insertionSort mongoListLE
        (ts.filter (listQueryMatches uid p? s?))).length ≤ (page - 1) * limit := by
      rw [List.length_insertionSort]
      exact ha.2.2 hp
    show (((ts.filter (listQueryMatches uid p? s?)).insertionSort
        mongoListLE).drop ((page - 1) * limit)).take limit = []
    rw [List.drop_eq_nil_of_le hlen, List.take_nil]
  · replace hp : ((ts.filter (listQueryMatches uid p? s?)).length
        + limit - 1) / limit + 1 ≤ page := hp
    show decide (page < ((ts.filter (listQueryMatches uid p? s?)).length
        + limit - 1) / limit) = false
    rw [decide_eq_false]
    omega
  · have hlen : (memoryFilteredTasks ts uid p? s?).length ≤ (page - 1) * limit :=
      hb.2.2 hp
    show ((memoryFilteredTasks ts uid p? s?).drop ((page - 1) * limit)).take limit = []
    rw [List.drop_eq_nil_of_le hlen, List.take_nil]
  · replace hp : ((memoryFilteredTasks ts uid p? s?).length
        + limit - 1) / limit + 1 ≤ page := hp
    show decide (page < ((memoryFilteredTasks ts uid p? s?).length
        + limit - 1) / limit) = false
    rw [decide_eq_false]
    omega

/-- Witness for C5 at a concrete input: three backlog tasks of user 1,
limit 2, page 3 = totalPages + 1 — the window is empty and hasNext is
false on both backends. -/
theorem C5_pagination_witness :
    (getTasksListMongo [exTaskHigh, exTaskPos5, exTaskBacklog] 1 none none 3 2).1 = [] ∧
    (getTasksListMemory [exTaskHigh, exTaskPos5, exTaskBacklog] 1 none none 3 2).2.hasNext
      = false :=
  ⟨((C5_pagination [exTaskHigh, exTaskPos5, exTaskBacklog] 1 none none 3 2
      (by decide)).2.2.2.2.1 (by decide)).1,
   ((C5_pagination [exTaskHigh, exTaskPos5, exTaskBacklog] 1 none none 3 2
      (by decide)).2.2.2.2.2.2.2.2.2 (by decide)).2⟩

/-- C6 divergence, evaluated at the failing input: the same state — one
task owned by user 1 in each store — and the same delete request by the
owner. With the document database connected the delete succeeds and
removes the task; with the memory fallback active the handler
dereferences the absent database model, the thrown error becomes the
catch-all server error, and the memory store still holds the task — its
deleteById is never invoked. The final conjuncts show no memory-fallback
delete ever succeeds or mutates anything, contradicting interchangeable
backends. -/
theorem C6_backend_divergence :
    (deleteTask true [exTaskHigh] [exTaskHigh] 1 1).1 = .ok () ∧
    (deleteTask true [exTaskHigh] [exTaskHigh] 1 1).2.1 = [] ∧
    (deleteTask false [exTaskHigh] [exTaskHigh] 1 1).1 = .error .serverError ∧
    (deleteTask false [exTaskHigh] [exTaskHigh] 1 1).2.2 = [exTaskHigh] ∧
    (∀ (mongoTs memTs : List Task) (uid tid : Nat),
      (deleteTask false mongoTs memTs uid tid).1 = .error .serverError ∧
      (deleteTask false mongoTs memTs uid tid).2.2 = memTs) := by
  exact ⟨rfl, rfl, rfl, rfl, fun _ _ _ _ => ⟨rfl, rfl⟩⟩

/-- C7: a delete request by a user who is neither the assignee nor the
creator of the target task fails with the authorization failure and the
store still contains the task: no mutation is left behind. -/
theorem C7_delete_requires_ownership (mongoTs memTs : List Task)
    (uid tid : Nat) (t : Task)
    (hf : tasksFindById mongoTs tid = some t)
    (ha : t.assignee ≠ uid) (hc : t.createdBy ≠ uid) :
    (deleteTask true mongoTs memTs uid tid).1 = .error (.authDenied
      "Access denied. You can only delete tasks assigned to you or created by you.") ∧
    (deleteTask true mongoTs memTs uid tid).2.1 = mongoTs ∧
    t ∈ (deleteTask true mongoTs memTs uid tid).2.1 := by
  have hown : checkOwnership uid (some t) = false := by
    simp only [checkOwnership, Bool.or_eq_false_iff, beq_eq_false_iff_ne]
    exact ⟨ha, hc⟩
  have hstep : deleteTask true mongoTs memTs uid tid
      = (.error (.authDenied
          "Access denied. You can only delete tasks assigned to you or created by you."),
         mongoTs, memTs) := by
    simp only [deleteTask, if_true, hf, hown]
    rfl
  refine ⟨by rw [hstep], by rw [hstep], ?_⟩
  rw [hstep]
  exact List.mem_of_find?_eq_some hf

/-- Witness for C7 at a concrete input: user 2 cannot delete the task of
user 1 and the task survives. -/
theorem C7_delete_requires_ownership_witness :
    (deleteTask true [exTaskHigh] [] 2 1).1 = .error (.authDenied
      "Access denied. You can only delete tasks assigned to you or created by you.") ∧
    exTaskHigh ∈ (deleteTask true [exTaskHigh] [] 2 1).2.1 :=
  ⟨(C7_delete_requires_ownership [exTaskHigh] [] 2 1 exTaskHigh rfl
      (by decide) (by decide)).1,
   (C7_delete_requires_ownership [exTaskHigh] [] 2 1 exTaskHigh rfl
      (by decide) (by decide)).2.2⟩

/-- C8: a create or full-update request whose due date is at or before the
current time is rejected by the validateTask middleware with a validation
failure naming the dueDate field, and the store is unchanged on every
handler path. -/
theorem C8_dueDate_validation (now : Int) (users : List Nat) (ts : List Task)
    (uid tid newId : Nat) (input : TaskInput) (d : Int)
    (hd : input.dueDate = some d) (hpast : d ≤ now) :
    "dueDate" ∈ validateTaskInput now input ∧
    (createTaskMongo now users ts uid input newId).1
      = .error (.validationFailed (validateTaskInput now input)) ∧
    (createTaskMongo now users ts uid input newId).2 = ts ∧
    (createTaskMemory now users ts uid input newId).1
      = .error (.validationFailed (validateTaskInput now input)) ∧
    (createTaskMemory now users ts uid input newId).2 = ts ∧
    (updateTaskMongo now users ts uid tid input).1
      = .error (.validationFailed (validateTaskInput now input)) ∧
    (updateTaskMongo now users ts uid tid input).2 = ts := by
  have hmem : "dueDate" ∈ validateTaskInput now input := by
    simp [validateTaskInput, hd, hpast]
  have hne : ¬ validateTaskInput now input = [] := by
    intro h
    rw [h] at hmem
    exact List.not_mem_nil _ hmem
  refine ⟨hmem, ?_, ?_, ?_, ?_, ?_, ?_⟩ <;>
    simp only [createTaskMongo, createTaskMemory, updateTaskMongo, if_neg hne]

/-- Witness for C8 at a concrete input: a create request whose due date is
one day before the current time is rejected naming dueDate and creates
nothing. -/
theorem C8_dueDate_validation_witness :
    "dueDate" ∈ validateTaskInput 86400000 exPastDueInput ∧
    (createTaskMongo 86400000 [1] [] 1 exPastDueInput 9).2 = [] :=
  ⟨(C8_dueDate_validation 86400000 [1] [] 1 1 9 exPastDueInput 0 rfl
      (by decide)).1,
   (C8_dueDate_validation 86400000 [1] [] 1 1 9 exPastDueInput 0 rfl
      (by decide)).2.2.1⟩

/-- C9: a successful status update changes only the status field (and the
schema-managed updatedAt timestamp): title, description, due date,
priority, assignee, creator, position, tags and the archived flag of the
task are unchanged, and every other task of the store is untouched. -/
theorem C9_status_update_frame (now : Int) (ts : List Task) (uid tid : Nat)
    (s : Status) (t : Task)
    (hf : tasksFindById ts tid = some t)
    (ho : checkOwnership uid (some t) = true) :
    ∃ t2, (updateTaskStatusMongo now ts uid tid s).1 = .ok t2 ∧
      t2.status = s ∧ t2.title = t.title ∧ t2.description = t.description ∧
      t2.dueDate = t.dueDate ∧ t2.priority = t.priority ∧
      t2.assignee = t.assignee ∧ t2.createdBy = t.createdBy ∧
      t2.position = t.position ∧ t2.tags = t.tags ∧
      t2.isArchived = t.isArchived ∧
      ∀ x ∈ ts, x._id ≠ tid → x ∈ (updateTaskStatusMongo now ts uid tid s).2 := by
  have hstep : updateTaskStatusMongo now ts uid tid s
      = (.ok { t with status := s, updatedAt := now },
         ts.map fun x => if x._id == tid
           then { x with status := s, updatedAt := now } else x) := by
    simp only [updateTaskStatusMongo, hf, ho]
    rfl
  refine ⟨{ t with status := s, updatedAt := now },
    by rw [hstep], rfl, rfl, rfl, rfl, rfl, rfl, rfl, rfl, rfl, rfl, ?_⟩
  intro x hx hne
  rw [hstep]
  refine List.mem_map.mpr ⟨x, hx, ?_⟩
  rw [if_neg]
  simp only [beq_iff_eq]
  exact hne

/-- Witness for C9 at a concrete input: completing the task of user 1
keeps every other field of the record. -/
theorem C9_status_update_frame_witness :
    ∃ t2, (updateTaskStatusMongo 5 [exTaskHigh] 1 1 .completed).1 = .ok t2 ∧
      t2.status = .completed ∧ t2.title = exTaskHigh.title ∧
      t2.description = exTaskHigh.description ∧
      t2.dueDate = exTaskHigh.dueDate ∧ t2.priority = exTaskHigh.priority ∧
      t2.assignee = exTaskHigh.assignee ∧ t2.createdBy = exTaskHigh.createdBy ∧
      t2.position = exTaskHigh.position ∧ t2.tags = exTaskHigh.tags ∧
      t2.isArchived = exTaskHigh.isArchived ∧
      ∀ x ∈ [exTaskHigh], x._id ≠ 1 →
        x ∈ (updateTaskStatusMongo 5 [exTaskHigh] 1 1 .completed).2 :=
  C9_status_update_frame 5 [exTaskHigh] 1 1 .completed exTaskHigh rfl (by decide)

/-- C10: the archived flag does not hide a task from the single-task read:
findById ignores the flag, so an owner still receives the archived task,
while the listing, board-lane and memory-filter queries all exclude it. -/
theorem C10_archived_visible_to_get (ts : List Task) (uid tid : Nat) (t : Task)
    (hf : tasksFindById ts tid = some t)
    (harch : t.isArchived = true)
    (hown : t.assignee = uid ∨ t.createdBy = uid) :
    getTask ts uid tid = .ok t ∧
    t ∉ tasksFindByAssignee ts t.assignee ∧
    (∀ p? s?, t ∉ memoryFilteredTasks ts uid p? s?) ∧
    (∀ p? s?, t ∉ mongoSortedMatching ts uid p? s?) ∧
    (∀ p page limit, t ∉ getTasksByPriority ts uid p page limit) := by
  have hnotassigned : ∀ a, t ∉ tasksFindByAssignee ts a := by
    intro a hmem
    have := (List.mem_filter.mp hmem).2
    simp [harch] at this
  refine ⟨?_, hnotassigned _, ?_, ?_, ?_⟩
  · simp only [getTask, hf]
    rcases hown with h | h <;> simp [h]
  · intro p? s? hmem
    have hbase : t ∈ tasksFindByAssignee ts uid := by
      unfold memoryFilteredTasks at hmem
      rcases p? with _ | p <;> rcases s? with _ | s <;>
        simp only [List.mem_filter] at hmem <;> tauto
    exact hnotassigned uid hbase
  · intro p? s? hmem
    rw [mongoSortedMatching, List.mem_insertionSort] at hmem
    have := (List.mem_filter.mp hmem).2
    simp [listQueryMatches, harch] at this
  · intro p page limit hmem
    have hmem2 := List.mem_of_mem_drop (List.mem_of_mem_take hmem)
    rw [List.mem_insertionSort] at hmem2
    have := (List.mem_filter.mp hmem2).2
    simp [mongoLaneMatches, harch] at this

/-- Witness for C10 at a concrete input: the archived task of user 1 is
returned by the single-task read and absent from its listing source. -/
theorem C10_archived_visible_to_get_witness :
    getTask [exTaskArchived] 1 1 = .ok exTaskArchived ∧
    exTaskArchived ∉ tasksFindByAssignee [exTaskArchived] exTaskArchived.assignee :=
  ⟨(C10_archived_visible_to_get [exTaskArchived] 1 1 exTaskArchived rfl rfl
      (Or.inl rfl)).1,
   (C10_archived_visible_to_get [exTaskArchived] 1 1 exTaskArchived rfl rfl
      (Or.inl rfl)).2.1⟩

end TaskManager
